import Mathlib

/-!
Shallow embedding of the live content store of the markdown blog server
(`src/main.rs`): front-matter parsing (`parse_post`), directory loading
(`load_posts`), the shared post cache (a `HashMap<String, Post>` behind a
`Mutex`), the file watcher loop (`watch_files`), and the search handler's
filter/sort pipeline (`search`).

Machine integers play no role; strings are Lean `String`s (Rust `String`
comparison is byte-lexicographic, which agrees with Lean's lexicographic
order on the ASCII data appearing here).  The external crates `serde_yaml`
(front-matter decoding) and `pulldown_cmark` (markdown rendering) are not
part of this repository; they enter the embedding as an explicit parameter
`Externals` consisting of a decoder `String → Option FrontMatter` and a
pure renderer `String → String`, so every theorem quantifies over them.
-/

/-- Rust struct `FrontMatter`: required `title` and `date`, optional `tags`. -/
structure FrontMatter where
  title : String
  date : String
  tags : Option (List String)
deriving DecidableEq, Repr

/-- Rust struct `Post`: the parsed document. `slug` is the id (file stem),
`content` the trimmed raw body, `html` the rendered body. -/
structure Post where
  slug : String
  frontmatter : FrontMatter
  content : String
  html : String
deriving DecidableEq, Repr

/-- One directory entry: its file name (within the content directory; the
scan is non-recursive) and the result of `fs::read_to_string`
(`none` models a read failure, e.g. the entry is a subdirectory). -/
structure SrcFile where
  name : String
  content : Option String
deriving DecidableEq, Repr

/-- The two external library functions used by `parse_post`:
`serde_yaml::from_str::<FrontMatter>` and the `pulldown_cmark` HTML
renderer.  Both are pure; theorems quantify over them. -/
structure Externals where
  decode : String → Option FrontMatter
  render : String → String

/-- `pat.leadsWith cs`: `cs` starts with the pattern `pat` (Rust
`str::starts_with` over the character list). -/
def leadsWith : List Char → List Char → Bool
  | [], _ => true
  | _ :: _, [] => false
  | p :: ps, c :: cs => p == c && leadsWith ps cs

/-- Find the first occurrence of (non-empty) `sep` in the list, returning
the segments before and after it; the `Nat` argument is recursion fuel, in
use always the list's length. -/
def findSplit (sep : List Char) : Nat → List Char → Option (List Char × List Char)
  | _, [] => none
  | 0, _ => none
  | fuel + 1, c :: cs =>
    if leadsWith sep (c :: cs) then some ([], List.drop sep.length (c :: cs))
    else (findSplit sep fuel cs).map (fun r => (c :: r.1, r.2))

/-- Rust `str::splitn(n, sep)` for a non-empty separator: at most `n`
segments, the last one keeping any further separator occurrences. -/
def rustSplitn : Nat → List Char → List Char → List (List Char)
  | 0, _, _ => []
  | 1, _, s => [s]
  | n + 2, sep, s =>
    match findSplit sep s.length s with
    | none => [s]
    | some (before, after) => before :: rustSplitn (n + 1) sep after

/-- Rust `raw.splitn(3, "---")`: split on the first at most two
non-overlapping occurrences of `"---"`; the last returned segment keeps any
further occurrences. -/
def splitn3 (s : String) : List String :=
  (rustSplitn 3 "---".data s.data).map String.mk

/-- Rust `str::trim` (both-ends whitespace trim) over a character list. -/
def listTrim (cs : List Char) : List Char :=
  ((cs.dropWhile Char.isWhitespace).reverse.dropWhile Char.isWhitespace).reverse

/-- Rust `str::trim` on a string. -/
def strTrim (s : String) : String :=
  String.mk (listTrim s.data)

/-- Split a file name at its last dot: `some (stem, ext)` when a dot exists,
`none` otherwise.  Helper for the `std::path` stem/extension semantics. -/
def lastDot : List Char → Option (List Char × List Char)
  | [] => none
  | c :: cs =>
    match lastDot cs with
    | some (b, a) => some (c :: b, a)
    | none => if c == '.' then some ([], cs) else none

/-- Rust `Path::file_stem` applied to a plain file name: the portion before
the last dot, except that a leading-dot-only name (".gitignore") is its own
stem; `none` for the no-file-name cases `""`, `"."`, `".."`. -/
def rustFileStem (name : String) : Option String :=
  if name = "" ∨ name = "." ∨ name = ".." then none
  else
    match lastDot name.data with
    | none => some name
    | some (b, _) => if b.isEmpty then some name else some (String.mk b)

/-- Rust `Path::extension` applied to a plain file name: the portion after
the last dot, `none` when there is no dot or the only dot is leading. -/
def rustExtension (name : String) : Option String :=
  if name = "" ∨ name = "." ∨ name = ".." then none
  else
    match lastDot name.data with
    | none => none
    | some (b, a) => if b.isEmpty then none else some (String.mk a)

/-- The guard in `load_posts`:
`path.extension().map(|e| e == "md").unwrap_or(false)`. -/
def isMdFile (name : String) : Bool :=
  ((rustExtension name).map (fun e => e == "md")).getD false

/-- `parse_post` (src/main.rs lines 36-55): read the file, split on `---`
into at most 3 segments, fail below 3 segments; decode the middle segment as
front matter, trim the third segment as the body, render it, and derive the
slug from the file stem.  Any failure yields `none`. -/
def parse_post (ext : Externals) (name : String) (content? : Option String) :
    Option Post := do
  let raw ← content?
  let parts := splitn3 raw
  if parts.length < 3 then none
  else do
    let fm_str := parts.getD 1 ""
    let content := strTrim (parts.getD 2 "")
    let frontmatter ← ext.decode fm_str
    let html := ext.render content
    let slug ← rustFileStem name
    some { slug := slug, frontmatter := frontmatter, content := content,
           html := html }

/-- Comparator of the two `sort_by(|a, b| b.frontmatter.date.cmp(&a.frontmatter.date))`
calls: `a` may precede `b` exactly when `b`'s date is ≤ `a`'s, i.e. sort by
date descending; Rust's `sort_by` is stable, as is `List.mergeSort`. -/
def dateDescLe (a b : Post) : Bool :=
  decide (b.frontmatter.date ≤ a.frontmatter.date)

/-- Per-entry step of the `load_posts` scan loop: parse the entry when its
extension is exactly `"md"`, skip it otherwise. -/
def loadStep (ext : Externals) (f : SrcFile) : Option Post :=
  if isMdFile f.name then parse_post ext f.name f.content else none

/-- `load_posts` (src/main.rs lines 57-74): scan the content directory
(`none` models `fs::read_dir` failing, which yields no entries), parse every
`.md` entry, drop failures, and sort by date descending.  The entry list is
in directory-enumeration order, which the file system does not fix. -/
def load_posts (ext : Externals) (dir : Option (List SrcFile)) : List Post :=
  (match dir with
   | some entries => entries.filterMap (loadStep ext)
   | none => []).mergeSort dateDescLe

/-- The shared cache `HashMap<String, Post>`, modelled as an association
list with unique keys; its list order stands for the map's (unspecified)
iteration order. -/
def Cache := List (String × Post)
deriving DecidableEq, Repr

/-- `cache.insert(post.slug.clone(), post)`: bind `k` to `v`, replacing any
existing binding. -/
def cacheInsert (c : Cache) (k : String) (v : Post) : Cache :=
  (k, v) :: List.filter (fun p => !(p.1 == k)) c

/-- The keys currently bound in the cache. -/
def cacheKeys (c : Cache) : List String :=
  c.map (fun p => p.1)

/-- `HashMap::get`: look the key up in the cache. -/
def cacheGet (c : Cache) (k : String) : Option Post :=
  (List.find? (fun p => p.1 == k) c).map (fun p => p.2)

/-- The insert loop shared by `start_server` (initial load, lines 89-93) and
the reload path in `watch_files` (lines 155-159, after `cache.clear()`):
fold the posts into an empty cache, keyed by slug. -/
def buildCache (posts : List Post) : Cache :=
  posts.foldl (fun c p => cacheInsert c p.slug p) []

/-- `posts_guard.values().collect()`: the cache's posts in iteration order. -/
def cacheValues (c : Cache) : List Post :=
  c.map (fun p => p.2)

/-- `pat.isSubListOf cs`: `pat` occurs contiguously in `cs`
(Rust `str::contains` over character lists; the empty pattern matches). -/
def isSubListOf (pat : List Char) : List Char → Bool
  | [] => pat.isEmpty
  | c :: cs => leadsWith pat (c :: cs) || isSubListOf pat cs

/-- Rust `haystack.contains(&needle)` on strings. -/
def strContains (haystack needle : String) : Bool :=
  isSubListOf needle.data haystack.data

/-- Rust `str::to_lowercase` (ASCII-faithful model over the characters). -/
def strToLower (s : String) : String :=
  String.mk (s.data.map Char.toLower)

/-- The free-text predicate of the `search` handler (lines 252-255):
title or raw body contains the lowercased query as a substring, compared
case-insensitively. -/
def textMatch (q : String) (p : Post) : Bool :=
  strContains (strToLower p.frontmatter.title) (strToLower q) ||
  strContains (strToLower p.content) (strToLower q)

/-- The tag predicate of the `search` handler (lines 262-266): some tag of
the post equals the requested tag exactly (case-sensitive); posts without a
tags field never match. -/
def tagMatch (t : String) (p : Post) : Bool :=
  match p.frontmatter.tags with
  | some tags => tags.any (fun x => x == t)
  | none => false

/-- Rust `str::trim().is_empty()`: the parameter is blank. -/
def isBlank (s : String) : Bool :=
  (strTrim s).data.isEmpty

/-- First `retain` of `search` (lines 249-257): keep only free-text matches
when the `q` parameter is present and non-blank. -/
def applyQ (q : Option String) (posts : List Post) : List Post :=
  match q with
  | none => posts
  | some s => if isBlank s then posts else posts.filter (textMatch s)

/-- Second `retain` of `search` (lines 260-268): keep only tag matches when
the `tag` parameter is present and non-blank. -/
def applyTag (t : Option String) (posts : List Post) : List Post :=
  match t with
  | none => posts
  | some s => if isBlank s then posts else posts.filter (tagMatch s)

/-- The `search` handler's filter/sort pipeline (lines 245-271) as a
function of the snapshot's value-iteration sequence: free-text filter, then
tag filter, then stable sort by date descending.  The input list stands for
`posts_guard.values()`, whose order the `HashMap` does not specify. -/
def search (q t : Option String) (snapshot : List Post) : List Post :=
  (applyTag t (applyQ q snapshot)).mergeSort dateDescLe

/-- One mutex-protected operation on the shared cache.  Every access in the
program locks the `Mutex` around the whole operation: the read handlers hold
it across their read, and the reload path (lines 155-159) holds it across
`cache.clear()` plus the whole insert loop — so each operation is one atomic
step of the store, and an interleaving is a sequence of such steps. -/
inductive StoreOp where
  | getAll
  | get (id : String)
  | replace (posts : List Post)
deriving DecidableEq, Repr

/-- What a read operation returned: a whole snapshot (`getAll`, as iterated
by the home and search handlers) or a point lookup (`get`). -/
inductive ReadResult where
  | snapshot (c : Cache)
  | found (r : Option Post)
deriving DecidableEq, Repr

/-- Execute a sequence of atomic store operations from a starting cache:
the read results in order, and the final cache.  `replace ps` models the
reload path's `clear` + insert loop under one lock acquisition, which
rebuilds the cache from scratch (`buildCache ps`). -/
def runStore (c : Cache) : List StoreOp → List ReadResult × Cache
  | [] => ([], c)
  | .getAll :: ops =>
    let r := runStore c ops
    (.snapshot c :: r.1, r.2)
  | .get i :: ops =>
    let r := runStore c ops
    (.found (cacheGet c i) :: r.1, r.2)
  | .replace ps :: ops => runStore (buildCache ps) ops

/-- The read results a sequence of read-only operations produces against a
fixed cache. -/
def readsOf (c : Cache) : List StoreOp → List ReadResult :=
  List.filterMap fun op =>
    match op with
    | .getAll => some (.snapshot c)
    | .get i => some (.found (cacheGet c i))
    | .replace _ => none

/-- The operation is a read (not the reload path's replace). -/
def isReadOp : StoreOp → Bool
  | .replace _ => false
  | _ => true

/-- The receive loop of `watch_files` (lines 148-161), driven by the queued
event arrival times (ms) in order.  For each event received the task sleeps
100 ms and then reloads: it scans the directory (`scan` gives the directory
contents as seen at a given time) and rebuilds the cache.  Events arriving
during the sleep stay queued in the channel; none restarts the delay and
none is dropped.  Returns the final cache and the number of reloads. -/
def watchLoop (ext : Externals) (scan : Nat → Option (List SrcFile)) :
    Nat → List Nat → Cache → Cache × Nat
  | _, [], c => (c, 0)
  | now, t :: rest, _c =>
    let wake := max now t + 100
    let c2 := buildCache (load_posts ext (scan wake))
    let r := watchLoop ext scan wake rest c2
    (r.1, r.2 + 1)

/-- `watch_files` (lines 125-162): when subscribing the watcher to the
content directory fails (`watchOk = false`), it warns and returns without
ever touching the cache; otherwise it runs the receive loop over the queued
events. -/
def watch_files (ext : Externals) (watchOk : Bool)
    (scan : Nat → Option (List SrcFile)) (events : List Nat) (c : Cache) :
    Cache × Nat :=
  if watchOk then watchLoop ext scan 0 events c else (c, 0)

/-- Look a `key: value` line up in the front-matter block's lines. -/
def fieldOf (key : String) (lines : List (List Char)) : Option String :=
  (lines.filterMap fun l =>
    if leadsWith (key ++ ": ").data l then
      some (String.mk (List.drop (key.length + 2) l))
    else none).head?

/-- Modelled from the spec: `serde_yaml::from_str::<FrontMatter>` is an
external library, absent from this repository; the spec (section 6) fixes
the front-matter format to `key: value` lines for required `title`, `date`
and an optional `tags` sequence.  This decoder implements that format (tags
written comma-separated) and is used to instantiate the `Externals`
parameter on concrete inputs; every general theorem quantifies over the
decoder instead. -/
def simpleDecode (s : String) : Option FrontMatter := do
  let lines := rustSplitn (s.data.length + 1) "\n".data s.data
  let title ← fieldOf "title" lines
  let date ← fieldOf "date" lines
  let tags := (fieldOf "tags" lines).map fun v =>
    (rustSplitn (v.data.length + 1) ", ".data v.data).map String.mk
  some { title := title, date := date, tags := tags }

/-- A concrete instantiation of the external crates for evaluating the
pipeline on concrete inputs: the spec-modelled decoder and a stand-in pure
renderer (the theorems hold for every renderer). -/
def extDemo : Externals :=
  { decode := simpleDecode, render := fun s => s }

/-- The per-document predicate the `q` parameter imposes on the retained
set: vacuous when `q` is absent or blank, otherwise the case-insensitive
substring match on title or raw body. -/
def qKeep (q : Option String) (p : Post) : Bool :=
  match q with
  | none => true
  | some s => if isBlank s then true else textMatch s p

/-- The per-document predicate the `tag` parameter imposes on the retained
set: vacuous when `tag` is absent or blank, otherwise the exact
case-sensitive tag match. -/
def tKeep (t : Option String) (p : Post) : Bool :=
  match t with
  | none => true
  | some s => if isBlank s then true else tagMatch s p

/-- A well-formed content file (front matter plus markdown body). -/
def goodFile : SrcFile :=
  { name := "hello.md",
    content := some "---\ntitle: Hello\ndate: 2024-01-02\n---\n# H\n\nbody" }

/-- A malformed content file: no front-matter delimiters at all, so
`splitn3` yields a single segment and parsing fails. -/
def badFile : SrcFile :=
  { name := "broken.md", content := some "no front matter here" }

/-- A well-formed file whose extension is not `md`. -/
def txtFile : SrcFile :=
  { name := "notes.txt",
    content := some "---\ntitle: Notes\ndate: 2024-01-03\n---\nbody" }

/-- The document `goodFile` parses to under `extDemo`. -/
def pHello : Post :=
  { slug := "hello",
    frontmatter := { title := "Hello", date := "2024-01-02", tags := none },
    content := "# H\n\nbody", html := "# H\n\nbody" }

/-- A document with slug "a"; same date as `pB`. -/
def pA : Post :=
  { slug := "a",
    frontmatter := { title := "A", date := "2024-01-01", tags := none },
    content := "", html := "" }

/-- A document with slug "b"; same date as `pA`. -/
def pB : Post :=
  { slug := "b",
    frontmatter := { title := "B", date := "2024-01-01", tags := none },
    content := "", html := "" }

-- sanity checks on the parsing pipeline
example : splitn3 "a---b---c---d" = ["a", "b", "c---d"] := by decide
example : splitn3 "ab" = ["ab"] := by decide
example : rustFileStem "hello.md" = some "hello" := by decide
example : rustExtension "hello.md" = some "md" := by decide
example : rustFileStem ".gitignore" = some ".gitignore" := by decide
example : rustExtension ".gitignore" = none := by decide
example : rustExtension "notes.txt" = some "txt" := by decide
example : isMdFile "hello.md" = true := by decide
example : isMdFile "hello.MD" = false := by decide

/-! ## Helper lemmas -/

/-- `dateDescLe` is transitive (from transitivity of the string order). -/
theorem dateDescLe_trans : ∀ (a b c : Post),
    dateDescLe a b → dateDescLe b c → dateDescLe a c := by
  intro a b c h1 h2
  simp only [dateDescLe, decide_eq_true_eq] at *
  exact le_trans h2 h1

/-- `dateDescLe` is total (from totality of the string order). -/
theorem dateDescLe_total : ∀ (a b : Post), dateDescLe a b || dateDescLe b a := by
  intro a b
  simp only [dateDescLe, Bool.or_eq_true, decide_eq_true_eq]
  exact le_total _ _

/-- The first `retain` is a `filter` by `qKeep`. -/
theorem applyQ_eq_filter (q : Option String) (posts : List Post) :
    applyQ q posts = posts.filter (qKeep q) := by
  cases q with
  | none =>
    exact (List.filter_eq_self.mpr fun a _ => by simp [qKeep]).symm
  | some s =>
    by_cases h : isBlank s
    · simp only [applyQ, h, if_pos]
      exact (List.filter_eq_self.mpr fun a _ => by simp [qKeep, h]).symm
    · simp only [applyQ, h, if_neg, Bool.not_eq_true]
      exact List.filter_congr fun a _ => by simp [qKeep, h]

/-- The second `retain` is a `filter` by `tKeep`. -/
theorem applyTag_eq_filter (t : Option String) (posts : List Post) :
    applyTag t posts = posts.filter (tKeep t) := by
  cases t with
  | none =>
    exact (List.filter_eq_self.mpr fun a _ => by simp [tKeep]).symm
  | some s =>
    by_cases h : isBlank s
    · simp only [applyTag, h, if_pos]
      exact (List.filter_eq_self.mpr fun a _ => by simp [tKeep, h]).symm
    · simp only [applyTag, h, if_neg, Bool.not_eq_true]
      exact List.filter_congr fun a _ => by simp [tKeep, h]

/-- The two retains compose into one conjunctive filter. -/
theorem applyTag_applyQ (q t : Option String) (l : List Post) :
    applyTag t (applyQ q l) = l.filter (fun p => qKeep q p && tKeep t p) := by
  rw [applyQ_eq_filter, applyTag_eq_filter, List.filter_filter]
  exact List.filter_congr fun p _ => by rw [Bool.and_comm]


/-- `isMdFile` tests for the exact extension "md". -/
theorem isMdFile_iff (name : String) :
    isMdFile name = true ↔ rustExtension name = some "md" := by
  unfold isMdFile
  cases h : rustExtension name <;> simp

/-- `loadStep` yields a post exactly for an `.md` entry that parses. -/
theorem loadStep_eq_some (ext : Externals) (f : SrcFile) (p : Post) :
    loadStep ext f = some p ↔
      rustExtension f.name = some "md" ∧
      parse_post ext f.name f.content = some p := by
  unfold loadStep
  by_cases h : isMdFile f.name
  · simp [h, (isMdFile_iff f.name).mp h]
  · rw [if_neg h]
    constructor
    · intro hc; simp at hc
    · rintro ⟨hmd, -⟩
      exact absurd ((isMdFile_iff f.name).mpr hmd) h

/-! ## Claim theorems -/

/-- C8: for every snapshot iteration sequence and optional parameters
`freeText` (`q`) and `tag`, the search handler retains exactly the documents
passing both active filters — the case-insensitive title/raw-body substring
filter when `q` is present and non-blank, and the exact case-sensitive tag
filter when `tag` is present and non-blank — i.e. the conjunction (AND) of
the two predicates; the result is the filtered snapshot up to the final
sort's reordering. -/
theorem search_conjunctive_filters (q t : Option String) (l : List Post) :
    (search q t l).Perm (l.filter fun p => qKeep q p && tKeep t p) ∧
    ∀ p : Post, p ∈ search q t l ↔
      p ∈ l ∧ qKeep q p = true ∧ tKeep t p = true := by
  have hperm : (search q t l).Perm (l.filter fun p => qKeep q p && tKeep t p) := by
    unfold search
    rw [applyTag_applyQ]
    exact List.mergeSort_perm _ _
  refine ⟨hperm, fun p => ?_⟩
  rw [hperm.mem_iff, List.mem_filter]
  simp [and_assoc]

/-- C5: a file whose parse fails never aborts the scan: the loaded document
list is (up to the final sort) exactly the successful parses of the `.md`
entries, and in particular one well-formed plus one malformed file yield
exactly one document. -/
theorem load_posts_skip_not_abort (ext : Externals) (files : List SrcFile) :
    (load_posts ext (some files)).Perm (files.filterMap (loadStep ext)) ∧
    (load_posts extDemo (some [goodFile, badFile])).length = 1 := by
  constructor
  · exact List.mergeSort_perm _ _
  · show (List.mergeSort _ _).length = 1
    rw [List.length_mergeSort]
    decide

/-- C9: loading the same unchanged directory contents twice — the two scans
may enumerate the entries in different orders — produces document sets with
identical content (the same multiset of parsed documents, hence the same
set of `(id, title, date, tags, renderedBody)` tuples), though the order
may differ. -/
theorem load_posts_idempotent (ext : Externals) {files₁ files₂ : List SrcFile}
    (h : files₁.Perm files₂) :
    (load_posts ext (some files₁)).Perm (load_posts ext (some files₂)) := by
  show (List.mergeSort _ _).Perm (List.mergeSort _ _)
  exact (List.mergeSort_perm _ _).trans
    ((h.filterMap _).trans (List.mergeSort_perm _ _).symm)

/-- C9 witness: two enumeration orders of the same two files yield the same
documents. -/
theorem load_posts_idempotent_witness :
    (load_posts extDemo (some [goodFile, badFile])).Perm
      (load_posts extDemo (some [badFile, goodFile])) :=
  load_posts_idempotent extDemo (List.Perm.swap badFile goodFile [])

/-- C10: a document enters the loaded set exactly when it is the successful
parse of a directory entry whose extension is exactly "md"; entries with any
other extension or none are ignored regardless of content. -/
theorem load_posts_only_md (ext : Externals) (files : List SrcFile) (p : Post) :
    p ∈ load_posts ext (some files) ↔
      ∃ f ∈ files, rustExtension f.name = some "md" ∧
        parse_post ext f.name f.content = some p := by
  show p ∈ List.mergeSort _ _ ↔ _
  rw [List.mem_mergeSort, List.mem_filterMap]
  constructor
  · rintro ⟨f, hf, hstep⟩
    exact ⟨f, hf, (loadStep_eq_some ext f p).mp hstep⟩
  · rintro ⟨f, hf, hmd, hparse⟩
    exact ⟨f, hf, (loadStep_eq_some ext f p).mpr ⟨hmd, hparse⟩⟩

/-- C10 witness: the well-formed `.md` file's document is in the loaded set
of a directory also containing a malformed `.md` file and a well-formed
`.txt` file. -/
theorem load_posts_only_md_witness :
    pHello ∈ load_posts extDemo (some [goodFile, badFile, txtFile]) :=
  (load_posts_only_md extDemo [goodFile, badFile, txtFile] pHello).mpr
    ⟨goodFile, by decide, by decide, by decide⟩

/-- C1 counterexample: with the snapshot's value-iteration sequence
`[pB, pA]` — two documents with identical `publishedAt` — a query with no
filters returns `[pB, pA]`: the tie is NOT broken by `id` ascending ("b"
precedes "a").  The sort comparator (line 271) compares dates only, so ties
keep the `HashMap`'s unspecified iteration order. -/
theorem search_tie_order_counterexample :
    ¬ ((search none none [pB, pA]).Pairwise fun a b =>
        b.frontmatter.date < a.frontmatter.date ∨
        (a.frontmatter.date = b.frontmatter.date ∧ a.slug ≤ b.slug)) := by
  have hs : search none none [pB, pA] = [pB, pA] := by
    unfold search applyTag applyQ
    exact List.mergeSort_of_sorted
      (by simp [List.pairwise_cons, dateDescLe, pA, pB])
  rw [hs]
  intro hp
  rcases List.pairwise_cons.mp hp with ⟨hrel, -⟩
  rcases hrel pA (by simp) with h | ⟨-, hle⟩
  · simp only [pA, pB] at h
    exact absurd h (lt_irrefl _)
  · simp only [pA, pB] at hle
    exact absurd hle (not_le.mpr (String.lt_iff_toList_lt.mpr (by decide)))

/-- C1 amended: the query result is sorted by `publishedAt` descending, and
documents with identical `publishedAt` keep their relative order from the
snapshot's iteration sequence (the sort is stable) — which is not
necessarily `id` ascending; repeated queries over the same iteration
sequence return the same order because `search` is a pure function of it. -/
theorem search_sorted_date_desc (q t : Option String) (l : List Post) :
    ((search q t l).Pairwise fun a b =>
      b.frontmatter.date ≤ a.frontmatter.date) ∧
    ∀ a b : Post, a.frontmatter.date = b.frontmatter.date →
      [a, b].Sublist (applyTag t (applyQ q l)) →
      [a, b].Sublist (search q t l) := by
  constructor
  · have hs := List.sorted_mergeSort dateDescLe_trans
      dateDescLe_total (applyTag t (applyQ q l))
    exact hs.imp fun h => by simpa [dateDescLe] using h
  · intro a b hdate hsub
    exact List.pair_sublist_mergeSort dateDescLe_trans dateDescLe_total
      (by simp [dateDescLe, hdate]) hsub

/-- C1 witness: on the concrete snapshot sequence `[pB, pA]` (equal dates)
the result is date-sorted and the equal-date pair keeps its iteration
order. -/
theorem search_sorted_date_desc_witness :
    ((search none none [pB, pA]).Pairwise fun a b =>
      b.frontmatter.date ≤ a.frontmatter.date) ∧
    [pB, pA].Sublist (search none none [pB, pA]) :=
  ⟨(search_sorted_date_desc none none [pB, pA]).1,
   (search_sorted_date_desc none none [pB, pA]).2 pB pA rfl
     (List.Sublist.refl _)⟩

/-- Looking up key `s` ignores the entries another key's insert removed. -/
theorem find?_filter_ne (c : List (String × Post)) (k s : String)
    (h : s ≠ k) :
    List.find? (fun p => p.1 == s) (List.filter (fun p => !(p.1 == k)) c) =
      List.find? (fun p => p.1 == s) c := by
  induction c with
  | nil => rfl
  | cons a c ih =>
    have hsk : (s == k) = false := beq_eq_false_iff_ne.mpr h
    have hks : (k == s) = false := beq_eq_false_iff_ne.mpr fun hc => h hc.symm
    by_cases ha : a.1 = k
    · simp [List.filter_cons, List.find?_cons, ha, hks, hsk, ih]
    · by_cases has : a.1 = s <;>
        simp [List.filter_cons, List.find?_cons, ha, has, hsk, hks, ih]

/-- `HashMap::insert` semantics seen through `get`: the inserted key maps to
the new value, every other key is untouched. -/
theorem cacheGet_cacheInsert (c : Cache) (k : String) (v : Post)
    (s : String) :
    cacheGet (cacheInsert c k v) s = if s = k then some v else cacheGet c s := by
  unfold cacheGet cacheInsert
  by_cases h : s = k
  · simp [List.find?_cons, h]
  · have hk : (k == s) = false := by
      simp; exact fun hc => h hc.symm
    simp [List.find?_cons, hk, find?_filter_ne c k s h, h]

/-- The insert fold resolves a key to the last post with that slug, falling
back to the starting cache. -/
theorem foldl_cacheInsert_get (posts : List Post) :
    ∀ (c : Cache) (s : String),
      cacheGet (posts.foldl (fun c p => cacheInsert c p.slug p) c) s =
        ((posts.filter fun p => p.slug == s).getLast?).or (cacheGet c s) := by
  induction posts with
  | nil => intro c s; simp
  | cons p rest ih =>
    intro c s
    rw [List.foldl_cons, ih]
    by_cases h : p.slug = s
    · rw [List.filter_cons_of_pos (by simp [h]),
        cacheGet_cacheInsert, if_pos h.symm]
      cases hr : rest.filter (fun q => q.slug == s) with
      | nil => simp
      | cons q l =>
        rw [List.getLast?_cons_cons]
        cases hy : (q :: l).getLast? with
        | none => simp at hy
        | some y => simp [hy]
    · rw [List.filter_cons_of_neg (by simp [h]),
        cacheGet_cacheInsert, if_neg fun hc => h hc.symm]

/-- Lookup in the built cache returns the last post (in ingestion order)
with the looked-up slug. -/
theorem buildCache_get (posts : List Post) (s : String) :
    cacheGet (buildCache posts) s = (posts.filter fun p => p.slug == s).getLast? := by
  rw [buildCache, foldl_cacheInsert_get]
  have hnil : cacheGet ([] : Cache) s = none := rfl
  rw [hnil, Option.or_none]

/-- Inserting preserves key uniqueness. -/
theorem cacheKeys_cacheInsert_nodup {c : Cache} (k : String) (v : Post)
    (h : (cacheKeys c).Nodup) :
    (cacheKeys (cacheInsert c k v)).Nodup := by
  unfold cacheKeys cacheInsert
  rw [List.map_cons, List.nodup_cons]
  constructor
  · intro hmem
    rcases List.mem_map.mp hmem with ⟨p, hp, hfst⟩
    rcases List.mem_filter.mp hp with ⟨-, hne⟩
    simp [hfst] at hne
  · exact List.Nodup.sublist ((List.filter_sublist c).map _) h

/-- Every cache the insert fold produces from a unique-key cache has unique
keys. -/
theorem foldl_cacheInsert_nodup (posts : List Post) :
    ∀ (c : Cache), (cacheKeys c).Nodup →
      (cacheKeys (posts.foldl (fun c p => cacheInsert c p.slug p) c)).Nodup := by
  induction posts with
  | nil => intro c h; exact h
  | cons p rest ih =>
    intro c h
    exact ih _ (cacheKeys_cacheInsert_nodup p.slug p h)

/-- C6: every store state produced by the initial load or by a reload — both
run the same keyed insert loop over the loaded post list — binds each id at
most once, and an id that several ingested posts share ends up bound to the
last of them in ingestion order. -/
theorem store_ids_unique_last_wins (posts : List Post) :
    (cacheKeys (buildCache posts)).Nodup ∧
    ∀ s, cacheGet (buildCache posts) s =
      (posts.filter fun p => p.slug == s).getLast? :=
  ⟨foldl_cacheInsert_nodup posts [] List.nodup_nil,
   fun s => buildCache_get posts s⟩

/-- A sequence of read-only operations returns reads of the current cache
and leaves it unchanged. -/
theorem runStore_reads (c : Cache) :
    ∀ ops : List StoreOp, ops.all isReadOp → runStore c ops = (readsOf c ops, c) := by
  intro ops h
  induction ops with
  | nil => rfl
  | cons op ops ih =>
    rw [List.all_cons, Bool.and_eq_true] at h
    cases op with
    | getAll => simp [runStore, readsOf, ih h.2]
    | get i => simp [runStore, readsOf, ih h.2]
    | replace ps => simp [isReadOp] at h

/-- Running a concatenation of operation sequences runs them in order. -/
theorem runStore_append (c : Cache) (xs ys : List StoreOp) :
    runStore c (xs ++ ys) =
      ((runStore c xs).1 ++ (runStore (runStore c xs).2 ys).1,
       (runStore (runStore c xs).2 ys).2) := by
  induction xs generalizing c with
  | nil => simp [runStore]
  | cons op xs ih => cases op <;> simp [runStore, ih]

/-- C3: for every interleaving consisting of read operations `a`, then the
reload path's replace (the mutex is held across `clear` + the insert loop,
so the whole replace is one atomic step), then read operations `b`, each
read in `a` observes exactly the pre-replace snapshot `c₀`, each read in `b`
observes exactly the post-replace snapshot `buildCache ps` — never a mixture
— and after the replace completes the store holds the new snapshot. -/
theorem replace_atomic_visibility (c₀ : Cache) (ps : List Post)
    (a b : List StoreOp) (ha : a.all isReadOp) (hb : b.all isReadOp) :
    runStore c₀ (a ++ StoreOp.replace ps :: b) =
      (readsOf c₀ a ++ readsOf (buildCache ps) b, buildCache ps) := by
  have h1 := runStore_reads c₀ a ha
  have h2 := runStore_reads (buildCache ps) b hb
  rw [runStore_append, h1]
  show (readsOf c₀ a ++ (runStore (buildCache ps) b).1,
        (runStore (buildCache ps) b).2) = _
  rw [h2]

/-- C3 witness: a `getAll` before and a `get` after a concrete replace
observe the old and the new snapshot respectively. -/
theorem replace_atomic_visibility_witness :
    runStore (buildCache [pA])
        ([StoreOp.getAll] ++ StoreOp.replace [pB] :: [StoreOp.get "b"]) =
      (readsOf (buildCache [pA]) [StoreOp.getAll] ++
        readsOf (buildCache [pB]) [StoreOp.get "b"], buildCache [pB]) :=
  replace_atomic_visibility (buildCache [pA]) [pB] [StoreOp.getAll]
    [StoreOp.get "b"] (by decide) (by decide)

/-- The watcher loop performs one reload per queued event. -/
theorem watchLoop_count (ext : Externals) (scan : Nat → Option (List SrcFile)) :
    ∀ (events : List Nat) (now : Nat) (c : Cache),
      (watchLoop ext scan now events c).2 = events.length := by
  intro events
  induction events with
  | nil => intro now c; rfl
  | cons t rest ih => intro now c; simp [watchLoop, ih]

/-- C2 counterexample: two events 50 ms apart — closer than the 100 ms
window — trigger 2 reloads, not 1.  The loop body (lines 148-161) sleeps
100 ms after receiving each event and then reloads; an event arriving during
the sleep waits in the channel and is processed (with its own reload) on the
next iteration, so nothing restarts the delay. -/
theorem debounce_collapse_counterexample :
    50 - 0 < 100 ∧
    (watch_files extDemo true (fun _ => some []) [0, 50] []).2 = 2 ∧
    (watch_files extDemo true (fun _ => some []) [0, 50] []).2 ≠ 1 := by
  refine ⟨by decide, ?_, ?_⟩ <;>
    simp [watch_files, watchLoop_count]

/-- C2 amended: every queued filesystem event produces exactly one reload
after a fixed 100 ms delay — a burst of N events produces N reloads
regardless of their spacing; bursts are not collapsed and later events do
not restart the delay. -/
theorem watch_files_reload_per_event (ext : Externals)
    (scan : Nat → Option (List SrcFile)) (events : List Nat) (c : Cache) :
    (watch_files ext true scan events c).2 = events.length := by
  simp [watch_files, watchLoop_count]

/-- C7: when watching the content directory fails, the watcher reports and
returns without processing any event: the cache is never touched (0
reloads), read-only traffic keeps being served from the prior snapshot
unchanged, and a failed directory scan contributes the empty document list
(so a startup with an unavailable directory serves the empty snapshot). -/
theorem watch_unavailable_serves_prior (ext : Externals)
    (scan : Nat → Option (List SrcFile)) (events : List Nat) (c : Cache)
    (ops : List StoreOp) (h : ops.all isReadOp) :
    watch_files ext false scan events c = (c, 0) ∧
    runStore c ops = (readsOf c ops, c) ∧
    load_posts ext none = [] := by
  refine ⟨rfl, runStore_reads c ops h, ?_⟩
  show List.mergeSort [] dateDescLe = []
  simp

/-- C7 witness: with a concrete prior snapshot and a concrete read trace,
the disabled watcher leaves the snapshot authoritative. -/
theorem watch_unavailable_serves_prior_witness :
    watch_files extDemo false (fun _ => none) [0, 50] (buildCache [pA]) =
        (buildCache [pA], 0) ∧
    runStore (buildCache [pA]) [StoreOp.getAll, StoreOp.get "a"] =
        (readsOf (buildCache [pA]) [StoreOp.getAll, StoreOp.get "a"],
         buildCache [pA]) ∧
    load_posts extDemo none = [] :=
  watch_unavailable_serves_prior extDemo (fun _ => none) [0, 50]
    (buildCache [pA]) [StoreOp.getAll, StoreOp.get "a"] (by decide)

/-- C4: for a readable file whose name has a stem (true of every directory
entry), `parse_post` returns `none` exactly when splitting the content on
`"---"` yields fewer than 3 segments or decoding the metadata block (the
second segment) fails; otherwise the returned document's body is the third
segment trimmed of leading/trailing whitespace and its id is the file name
with directory and extension stripped (the file stem). -/
theorem parse_post_none_iff (ext : Externals) (name raw : String)
    (hstem : (rustFileStem name).isSome) :
    (parse_post ext name (some raw) = none ↔
      (splitn3 raw).length < 3 ∨
      ext.decode ((splitn3 raw).getD 1 "") = none) ∧
    ∀ p : Post, parse_post ext name (some raw) = some p →
      p.content = strTrim ((splitn3 raw).getD 2 "") ∧
      rustFileStem name = some p.slug := by
  rcases Option.isSome_iff_exists.mp hstem with ⟨st, hst⟩
  by_cases hlen : (splitn3 raw).length < 3
  · constructor
    · simp [parse_post, hlen]
    · intro p hp
      simp [parse_post, hlen] at hp
  · cases hdec : ext.decode ((splitn3 raw)[1]?.getD "") with
    | none =>
      constructor
      · simp [parse_post, hlen, hdec]
      · intro p hp
        simp [parse_post, hlen, hdec] at hp
    | some fm =>
      have hval : parse_post ext name (some raw) =
          some { slug := st, frontmatter := fm,
                 content := strTrim ((splitn3 raw)[2]?.getD ""),
                 html := ext.render (strTrim ((splitn3 raw)[2]?.getD "")) } := by
        simp [parse_post, hlen, hdec, hst]
      constructor
      · simp [hval, hlen, hdec]
      · intro p hp
        rw [hval] at hp
        injection hp with hp
        rw [← hp]
        exact ⟨by simp, hst⟩

/-- C4 witness: a content file without front-matter delimiters parses to
`none` via the fewer-than-3-segments branch. -/
theorem parse_post_none_iff_witness :
    ((rustFileStem "hello.md").isSome = true) ∧
    (parse_post extDemo "hello.md" (some "no front matter") = none ↔
      (splitn3 "no front matter").length < 3 ∨
      extDemo.decode ((splitn3 "no front matter").getD 1 "") = none) ∧
    ∀ p : Post, parse_post extDemo "hello.md" (some "no front matter") = some p →
      p.content = strTrim ((splitn3 "no front matter").getD 2 "") ∧
      rustFileStem "hello.md" = some p.slug :=
  ⟨by decide, parse_post_none_iff extDemo "hello.md" "no front matter" (by decide)⟩
